import Mathlib

/-!
Verification of the summarization core of the youtube-summarizer repository
(`src/services/ai_summarizer.py`, `src/services/cache_manager.py`).

The Python code is shallowly embedded: strings are Lean `String`, Python
floats/ints appearing in time arithmetic are `ℚ`, parsed JSON values are the
inductive `JValue`, and every external model call is replaced by an explicit
outcome parameter (an `Oracle`), so that theorems quantify over every possible
backend behaviour (success with arbitrary parsed JSON, invalid JSON, raised
exception).
-/

namespace YTSum

/- Batteries marks rational arithmetic `@[irreducible]`; restore default
reducibility so that concrete program runs evaluate by `rfl`/`decide`. -/
attribute [local semireducible] Rat.add Rat.sub Rat.mul Rat.inv


/-! ### Python string primitives used by the source -/

/-- The whitespace characters recognised by Python's `str.split()` / `str.strip()`
(ASCII range). -/
def pyIsSpace (c : Char) : Bool :=
  c = ' ' || c = '\t' || c = '\n' || c = '\r' || c = '\x0b' || c = '\x0c'

/-- Characters of `s.strip()`: drop leading and trailing whitespace. -/
def pyStripChars (cs : List Char) : List Char :=
  ((cs.dropWhile pyIsSpace).reverse.dropWhile pyIsSpace).reverse

/-- Python `s.strip()`. -/
def pyStrip (s : String) : String := ⟨pyStripChars s.data⟩

/-- Helper for `pySplit`: walk the characters, accumulating the current word
(in reverse) in `acc`; whitespace runs separate words and produce no empties. -/
def pySplitAux : List Char → List Char → List (List Char)
  | [], acc => if acc.isEmpty then [] else [acc.reverse]
  | c :: cs, acc =>
    if pyIsSpace c then
      if acc.isEmpty then pySplitAux cs [] else acc.reverse :: pySplitAux cs []
    else
      pySplitAux cs (c :: acc)

/-- Python `s.split()` (no separator argument): split on runs of whitespace,
returning no empty strings. -/
def pySplit (s : String) : List String :=
  (pySplitAux s.data []).map (fun w => ⟨w⟩)

/-- Digit-run parser backing `pyInt?`. -/
def digitsToNat? (cs : List Char) : Option Nat :=
  if cs.isEmpty then none
  else if cs.all (·.isDigit) then
    some (cs.foldl (fun n c => n * 10 + (c.toNat - '0'.toNat)) 0)
  else none

/-- Model of Python `int(s)` on the timestamp components the source feeds it:
surrounding whitespace is ignored, an optional single sign is allowed, the rest
must be a non-empty digit run; anything else raises `ValueError` (`none`). -/
def pyInt? (s : List Char) : Option Int :=
  match pyStripChars s with
  | '+' :: rest => (digitsToNat? rest).map Int.ofNat
  | '-' :: rest => (digitsToNat? rest).map (fun n => -(n : Int))
  | rest => (digitsToNat? rest).map Int.ofNat

/-- ASCII lowercasing, as Python `str.lower()` acts on the timestamp strings. -/
def pyCharLower (c : Char) : Char :=
  if 'A' ≤ c ∧ c ≤ 'Z' then Char.ofNat (c.toNat + 32) else c

/-- Python `s.split(sep)` for a single-character separator (used for `":"`):
unlike `s.split()`, empty pieces are kept. -/
def splitOnChar (sep : Char) : List Char → List (List Char)
  | [] => [[]]
  | c :: rest =>
    if c = sep then [] :: splitOnChar sep rest
    else
      match splitOnChar sep rest with
      | w :: ws => (c :: w) :: ws
      | [] => [[c]]

/-! ### Parsed JSON values (the result of `json.loads`) -/

/-- A parsed JSON value.  `num` carries a rational since JSON numbers in this
program are small integers. -/
inductive JValue where
  | null
  | bool (b : Bool)
  | num (q : ℚ)
  | str (s : String)
  | arr (items : List JValue)
  | obj (fields : List (String × JValue))

instance : Inhabited JValue := ⟨.null⟩

/-- Python `d.get(key)` on a parsed JSON object (first matching field);
`none` for a missing key or a non-object. -/
def jGet : JValue → String → Option JValue
  | .obj fields, key => (fields.find? (fun f => f.1 == key)).map Prod.snd
  | _, _ => none

/-- Python `key in d` for a parsed JSON object. -/
def hasKey (j : JValue) (key : String) : Bool := (jGet j key).isSome

/-- Python `isinstance(x, list)` on an optional parsed value. -/
def isJsonList : Option JValue → Bool
  | some (.arr _) => true
  | _ => false

/-- The `topics` array of a summary object (empty for non-objects). -/
def topicsOf (j : JValue) : List JValue :=
  match jGet j "topics" with
  | some (.arr items) => items
  | _ => []

/-- The `full_summary` array of a summary object (empty for non-objects). -/
def fullSummaryOf (j : JValue) : List JValue :=
  match jGet j "full_summary" with
  | some (.arr items) => items
  | _ => []

/-! ### Configuration (AISummarizer.__init__) -/

/-- The active prompt-version token (`PROMPT_VERSION = "v5.0"`). -/
def PROMPT_VERSION : String := "v5.0"

/-- Per-mode configuration record; `prompt` text itself is irrelevant to control
flow and omitted (it is consumed by the modelled backend call). -/
structure ModeConfig where
  chunking_threshold : ℚ
  chunk_size : Nat
  max_tokens : Nat
deriving DecidableEq

/-- Source: `self.mode_configs["quick"]`. -/
def quickConfig : ModeConfig := { chunking_threshold := 420, chunk_size := 50000, max_tokens := 8000 }

/-- Source: `self.mode_configs["indepth"]`. -/
def indepthConfig : ModeConfig := { chunking_threshold := 420, chunk_size := 50000, max_tokens := 16000 }

/-- Source: `self.mode_configs.get(mode)`. -/
def mode_configs (mode : String) : Option ModeConfig :=
  if mode = "quick" then some quickConfig
  else if mode = "indepth" then some indepthConfig
  else none

/-- Source: `valid_tones` from `generate_comprehensive_summary`. -/
def valid_tones : List String :=
  ["Objective", "Academic", "Casual", "Skeptical", "Provocative"]

/-! ### Transcript segments and slicing -/

/-- One raw transcript segment `{"start": ..., "end": ..., "text": ...}`
(`end` is a Lean keyword, hence `endSec`). -/
structure Segment where
  startSec : ℚ
  endSec : ℚ
  text : String
deriving DecidableEq

/-- Source: `AISummarizer._parse_timestamp`: `"end"` (case-insensitively) ↦ −1,
`MM:SS` and `HH:MM:SS` ↦ total seconds; anything else raises (`none`). -/
def parse_timestamp (ts : String) : Option ℚ :=
  if ts.data.map pyCharLower = "end".data then some (-1)
  else
    match splitOnChar ':' ts.data with
    | [m, s] =>
      match pyInt? m, pyInt? s with
      | some m, some s => some ((m * 60 + s : ℤ) : ℚ)
      | _, _ => none
    | [h, m, s] =>
      match pyInt? h, pyInt? m, pyInt? s with
      | some h, some m, some s => some ((h * 3600 + m * 60 + s : ℤ) : ℚ)
      | _, _, _ => none
    | _ => none

/-- Source: `raw_segments[-1]['end'] if raw_segments else 0`. -/
def videoDuration (segs : List Segment) : ℚ :=
  (segs.getLast?).elim 0 Segment.endSec

/-- The `end` sentinel resolution: `if end_seconds == -1: end_seconds = video_duration`. -/
def resolvedEnd (segs : List Segment) (endRaw : ℚ) : ℚ :=
  if endRaw = -1 then videoDuration segs else endRaw

/-- The inclusion test of `_slice_transcript`:
`segment_end >= start_seconds and segment_start <= end_seconds`. -/
def overlapsWindow (startSeconds endSeconds : ℚ) (seg : Segment) : Bool :=
  startSeconds ≤ seg.endSec && seg.startSec ≤ endSeconds

/-- The distinct `ValueError`s `_slice_transcript` can raise, one constructor
per distinct message. -/
inductive SliceErr where
  | noSegments
  | badTimestamp
  | negativeStart
  | endBeyondDuration
  | startNotBeforeEnd
  | tooShort
  | noContent
deriving DecidableEq

/-- Body of `_slice_transcript` after timestamp parsing (source lines 519–559):
resolve the `end` sentinel, run the four window validations in source order,
then join the texts of all overlapping segments with single spaces. -/
def sliceCore (segs : List Segment) (startSeconds endRaw : ℚ) : Except SliceErr String :=
  let dur := videoDuration segs
  let endSeconds := resolvedEnd segs endRaw
  if startSeconds < 0 then .error .negativeStart
  else if endSeconds > dur then .error .endBeyondDuration
  else if startSeconds ≥ endSeconds then .error .startNotBeforeEnd
  else if endSeconds - startSeconds < 60 then .error .tooShort
  else
    let texts := (segs.filter (overlapsWindow startSeconds endSeconds)).map Segment.text
    if texts.isEmpty then .error .noContent
    else .ok (String.intercalate " " texts)

/-- Source: `AISummarizer._slice_transcript`: reject empty segment lists, parse both
timestamps, then validate and slice. -/
def slice_transcript (segs : List Segment) (startTime endTime : String) : Except SliceErr String :=
  if segs.isEmpty then .error .noSegments
  else
    match parse_timestamp startTime, parse_timestamp endTime with
    | some s, some e => sliceCore segs s e
    | _, _ => .error .badTimestamp

/-! ### Duration estimate and strategy selection -/

/-- Source: `AISummarizer._estimate_duration_minutes`: `len(transcript.split()) / 150`. -/
def estimate_duration_minutes (transcript : String) : ℚ :=
  ((pySplit transcript).length : ℚ) / 150

/-- The two processing strategies of the orchestrator. -/
inductive Strategy where
  | singlePass
  | chunked
deriving DecidableEq

/-- The strategy branch of `generate_comprehensive_summary` (source line 647):
chunked iff the estimated duration strictly exceeds the mode's threshold. -/
def selectStrategy (transcript : String) (config : ModeConfig) : Strategy :=
  if estimate_duration_minutes transcript > config.chunking_threshold then .chunked
  else .singlePass

/-! ### Fallback structure and the single-pass validator -/

/-- Source: `AISummarizer._get_fallback_summary`. -/
def get_fallback_summary (transcript title : String) (existingSummary : Option String) : JValue :=
  let summaryContent :=
    match existingSummary with
    | some s => s
    | none =>
      let content := String.intercalate " " ((pySplit transcript).take 300)
      if (pySplit transcript).length > 300 then
        content ++ "... (summary truncated due to processing error)"
      else content
  .obj
    [ ("quick_takeaway", .str ("Summary of: " ++ title)),
      ("key_points", .arr
        [ .str "This is a fallback summary generated due to an unexpected error.",
          .str "The full transcript is available below.",
          .str "Please try regenerating the summary for better results." ]),
      ("topics", .arr [ .obj [("topic_name", .str "Video Content"), ("summary_section_id", .num 1)] ]),
      ("timestamps", .arr []),
      ("full_summary", .arr [ .obj [("id", .num 1), ("content", .str summaryContent)] ]) ]

/-- The `required_fields` list of `_summarize_single_pass` (five base fields,
plus three more in `indepth` mode). -/
def required_fields (mode : String) : List String :=
  ["quick_takeaway", "key_points", "topics", "timestamps", "full_summary"]
    ++ (if mode = "indepth" then ["detailed_analysis", "key_quotes", "arguments"] else [])

/-- Every possible observable outcome of the structured backend call
(`_generate_with_gemini`) followed by `json.loads` on its raw text:
the call raised, or it returned text that failed to parse (`returned none`),
or it returned text parsing to an arbitrary JSON value. -/
inductive BackendOutcome where
  | raised
  | returned (parsed : Option JValue)

/-- Source: `AISummarizer._summarize_single_pass`: on a raised backend exception or a
JSON parse failure, degrade; with parsed JSON, check the required fields and
that `key_points` / `full_summary` are lists, in source order, degrading on any
violation; otherwise return the parsed object unchanged.  (`config` and `tone`
only parameterise the backend call, which `outcome` models; a parsed non-object
reaches the source's generic `except Exception` handler with the same fallback
result.) -/
def summarize_single_pass (outcome : BackendOutcome) (transcript title mode : String)
    (config : ModeConfig) (tone : String) : JValue :=
  match outcome with
  | .raised => get_fallback_summary transcript title none
  | .returned none => get_fallback_summary transcript title none
  | .returned (some summaryJson) =>
    let missingFields := (required_fields mode).filter (fun f => !hasKey summaryJson f)
    if missingFields.isEmpty then
      if isJsonList (jGet summaryJson "key_points") then
        if isJsonList (jGet summaryJson "full_summary") then summaryJson
        else get_fallback_summary transcript title none
      else get_fallback_summary transcript title none
    else get_fallback_summary transcript title none

/-! ### Chunked (map-reduce) path -/

/-- Word-level chunking behind `_split_transcript`:
`[words[i:i+chunk_size] for i in range(0, len(words), chunk_size)]`.
The first argument is fuel (instantiated with `words.length`, enough whenever
`chunk_size > 0`, since each step consumes at least one word). -/
def chunksOfWords (chunkSize : Nat) : Nat → List String → List (List String)
  | _, [] => []
  | 0, _ :: _ => []
  | fuel + 1, w :: ws => ((w :: ws).take chunkSize) :: chunksOfWords chunkSize fuel ((w :: ws).drop chunkSize)

/-- Source: `AISummarizer._split_transcript`: split into words, group into
`chunk_size`-word runs, and re-join each run with single spaces. -/
def split_transcript (transcript : String) (chunkSize : Nat) : List String :=
  let words := pySplit transcript
  (chunksOfWords chunkSize words.length words).map (String.intercalate " ")

/-- Source: `AISummarizer._summarize_chunk`, with the condensation call modelled by its
outcome: `some digest` is the stripped text of a successful call; `none` covers
every failure (Gemini unavailable, missing API key, raised exception, empty
candidate list), which all return `chunk[:500] + "..."`. -/
def summarize_chunk (condensed : Option String) (chunk : String) : String :=
  match condensed with
  | some digest => digest
  | none => chunk.take 500 ++ "..."

/-- All backend behaviour a single orchestrator run can observe: the outcome of
the one structured single-pass call, and the outcome of the per-chunk
condensation call, indexed by chunk position. -/
structure Oracle where
  singleOutcome : BackendOutcome
  chunkDigest : Nat → Option String

/-- Source: `AISummarizer._summarize_in_chunks`: split into `config.chunk_size`-word
chunks, condense each one in order (chunk titles only decorate the prompt),
join the digests with `"\n\n---\n\n"` into a meta-transcript, and run the
single-pass path on it with the original title, mode, config, and tone. -/
def summarize_in_chunks (o : Oracle) (transcript title mode : String)
    (config : ModeConfig) (tone : String) : JValue :=
  let chunks := split_transcript transcript config.chunk_size
  let chunkSummaries := chunks.enum.map (fun p => summarize_chunk (o.chunkDigest p.1) p.2)
  let metaTranscript := String.intercalate "\n\n---\n\n" chunkSummaries
  summarize_single_pass o.singleOutcome metaTranscript title mode config tone

/-! ### Orchestrator -/

/-- The errors `generate_comprehensive_summary` can raise: the empty-transcript
guard, or a `ValueError` propagated from `_slice_transcript`. -/
inductive GenErr where
  | emptyTranscript
  | sliceError (e : SliceErr)
deriving DecidableEq

/-- Source: `AISummarizer.generate_comprehensive_summary`, for an instance constructed
with `cache_manager=None` (the cache branch, lines 630–642 and 656–660, is then
inactive; the fingerprint computation it would use is modelled separately by
`versioned_content` / `contentFingerprint`).  Invalid modes and tones are
coerced to `"quick"` / `"Objective"` with a warning; slicing runs only when a
non-default range is requested AND raw segments are present, otherwise the full
transcript is used; then the duration-based strategy picks the chunked or
single-pass path. -/
def generate_comprehensive_summary (o : Oracle) (transcript title mode : String)
    (rawSegments : List Segment) (startTime endTime tone : String) :
    Except GenErr JValue :=
  if pyStrip transcript = "" then .error .emptyTranscript
  else
    let config := (mode_configs mode).getD quickConfig
    let mode := if (mode_configs mode).isSome then mode else "quick"
    let tone := if valid_tones.contains tone then tone else "Objective"
    let slicedE : Except SliceErr String :=
      if (startTime ≠ "00:00" ∨ endTime ≠ "end") ∧ rawSegments ≠ [] then
        slice_transcript rawSegments startTime endTime
      else
        .ok transcript
    match slicedE with
    | .error e => .error (.sliceError e)
    | .ok transcript =>
      match selectStrategy transcript config with
      | .chunked => .ok (summarize_in_chunks o transcript title mode config tone)
      | .singlePass => .ok (summarize_single_pass o.singleOutcome transcript title mode config tone)

/-! ### Cache fingerprint -/

/-- The cache-key pre-image of `generate_comprehensive_summary` (lines 631, 657):
`f"{PROMPT_VERSION}_{mode}_{start_time}_{end_time}_{tone}_{transcript}_{title}"`,
with the version token as a parameter. -/
def versioned_content (promptVersion mode startTime endTime tone transcript title : String) : String :=
  promptVersion ++ "_" ++ mode ++ "_" ++ startTime ++ "_" ++ endTime ++ "_" ++ tone
    ++ "_" ++ transcript ++ "_" ++ title

/-- Source: `CacheManager.generate_content_hash` applied to `versioned_content`.
The hash itself (first 16 hex characters of the SHA-256 digest, computed by
`hashlib`) is external to the repository and is modelled by the abstract
function `hash`; theorems assume it collision-free on the inputs involved. -/
def contentFingerprint (hash : String → String)
    (promptVersion mode startTime endTime tone transcript title : String) : String :=
  hash (versioned_content promptVersion mode startTime endTime tone transcript title)

/-! ## Helper lemmas -/

/-- The version token is recoverable from the cache-key pre-image: two
pre-images that agree on everything but the version token are equal only if
the tokens are. -/
lemma versioned_content_version_inj
    {v v' mode startTime endTime tone transcript title : String}
    (h : versioned_content v mode startTime endTime tone transcript title
        = versioned_content v' mode startTime endTime tone transcript title) :
    v = v' := by
  have hd := congrArg String.data h
  simp only [versioned_content, String.data_append, List.append_assoc] at hd
  exact String.ext (List.append_cancel_right hd)

/-- With enough fuel and a positive chunk size, the word chunks concatenate
back to the original word list. -/
lemma chunksOfWords_join (n : Nat) (hn : 0 < n) :
    ∀ (fuel : Nat) (ws : List String), ws.length ≤ fuel →
      (chunksOfWords n fuel ws).flatten = ws := by
  intro fuel
  induction fuel with
  | zero =>
    intro ws hws
    rw [List.length_eq_zero.mp (Nat.le_zero.mp hws)]
    rfl
  | succ fuel ih =>
    intro ws hws
    match ws with
    | [] => rfl
    | w :: rest =>
      have hlen : ((w :: rest).drop n).length ≤ fuel := by
        rw [List.length_drop]
        have := Nat.succ_le_of_lt hn
        simp only [List.length_cons] at hws ⊢
        omega
      simp only [chunksOfWords, List.flatten_cons, ih _ hlen, List.take_append_drop]

/-- With enough fuel and a positive chunk size, every chunk is non-empty, no
chunk exceeds the chunk size, and every chunk except possibly the last has
exactly the chunk size. -/
lemma chunksOfWords_sizes (n : Nat) (hn : 0 < n) :
    ∀ (fuel : Nat) (ws : List String), ws.length ≤ fuel →
      (∀ c ∈ chunksOfWords n fuel ws, c ≠ [] ∧ c.length ≤ n)
      ∧ (∀ c ∈ (chunksOfWords n fuel ws).dropLast, c.length = n) := by
  intro fuel
  induction fuel with
  | zero =>
    intro ws hws
    rw [List.length_eq_zero.mp (Nat.le_zero.mp hws)]
    exact ⟨fun c hc => absurd hc (List.not_mem_nil c), fun c hc => absurd hc (List.not_mem_nil c)⟩
  | succ fuel ih =>
    intro ws hws
    match ws with
    | [] =>
      exact ⟨fun c hc => absurd hc (List.not_mem_nil c), fun c hc => absurd hc (List.not_mem_nil c)⟩
    | w :: rest =>
      have hlen : ((w :: rest).drop n).length ≤ fuel := by
        rw [List.length_drop]
        simp only [List.length_cons] at hws ⊢
        omega
      obtain ⟨ihAll, ihInit⟩ := ih _ hlen
      constructor
      · intro c hc
        simp only [chunksOfWords, List.mem_cons] at hc
        rcases hc with hc | hc
        · subst hc
          refine ⟨?_, List.length_take_le n _⟩
          intro hnil
          have := congrArg List.length hnil
          simp only [List.length_take, List.length_cons, List.length_nil] at this
          omega
        · exact ihAll c hc
      · intro c hc
        by_cases hrest : (w :: rest).drop n = []
        · simp only [chunksOfWords, hrest] at hc
          simp only [List.dropLast] at hc
          exact absurd hc (List.not_mem_nil c)
        · have hchunks : chunksOfWords n fuel ((w :: rest).drop n) ≠ [] := by
            obtain ⟨x, xs, hxs⟩ : ∃ x xs, (w :: rest).drop n = x :: xs := by
              cases hd : (w :: rest).drop n with
              | nil => exact absurd hd hrest
              | cons x xs => exact ⟨x, xs, rfl⟩
            cases fuel with
            | zero =>
              rw [hxs] at hlen
              simp at hlen
            | succ f =>
              rw [hxs]
              simp [chunksOfWords]
          simp only [chunksOfWords] at hc
          rw [List.dropLast_cons_of_ne_nil hchunks, List.mem_cons] at hc
          rcases hc with hc | hc
          · subst hc
            rw [List.length_take]
            have hlt : n < (w :: rest).length := by
              by_contra hge
              push_neg at hge
              exact hrest (List.drop_eq_nil_of_le hge)
            omega
          · exact ihInit c hc

/-! ## Claim theorems -/

/-- C10: every `topics` entry of the fallback structure carries
`summary_section_id = 1`, and the fallback's `full_summary` always contains an
entry whose `id` is `1` — for every transcript, title, and optional existing
summary, the topics-to-full_summary join invariant holds on the fallback. -/
theorem fallback_topics_join_invariant (transcript title : String)
    (existingSummary : Option String) (tp : JValue)
    (h : tp ∈ topicsOf (get_fallback_summary transcript title existingSummary)) :
    jGet tp "summary_section_id" = some (.num 1)
    ∧ ∃ sec ∈ fullSummaryOf (get_fallback_summary transcript title existingSummary),
        jGet sec "id" = some (.num 1) := by
  cases existingSummary with
  | none =>
    have h' : tp ∈ [JValue.obj
        [("topic_name", JValue.str "Video Content"), ("summary_section_id", JValue.num 1)]] := h
    rw [List.mem_singleton] at h'
    subst h'
    exact ⟨rfl, ⟨_, List.Mem.head _, rfl⟩⟩
  | some s =>
    have h' : tp ∈ [JValue.obj
        [("topic_name", JValue.str "Video Content"), ("summary_section_id", JValue.num 1)]] := h
    rw [List.mem_singleton] at h'
    subst h'
    exact ⟨rfl, ⟨_, List.Mem.head _, rfl⟩⟩

/-- C10 witness at a concrete fallback call. -/
theorem fallback_topics_join_invariant_witness :
    jGet (.obj [("topic_name", .str "Video Content"), ("summary_section_id", .num 1)])
        "summary_section_id" = some (.num 1)
    ∧ ∃ sec ∈ fullSummaryOf (get_fallback_summary "hello world" "T" none),
        jGet sec "id" = some (.num 1) :=
  fallback_topics_join_invariant "hello world" "T" none _ (List.Mem.head _)

/-- C5 counterexample: with a 139-character title, the fallback's
`quick_takeaway` is 151 characters long, exceeding the 150-character bound the
claim asserts for every title. -/
theorem fallback_takeaway_over_150 :
    jGet (get_fallback_summary "hello" ⟨List.replicate 139 'a'⟩ none) "quick_takeaway"
      = some (.str ("Summary of: " ++ ⟨List.replicate 139 'a'⟩))
    ∧ 150 < ("Summary of: " ++ (⟨List.replicate 139 'a'⟩ : String)).length := by
  refine ⟨rfl, ?_⟩
  rw [String.length_append]
  simp [String.length]

/-- C5 amended: the fallback's `quick_takeaway` is exactly the 12-character
prefix `"Summary of: "` followed by the title, so it satisfies the
150-character bound precisely when the title has at most 138 characters (no
length bound is enforced anywhere in the pipeline). -/
theorem fallback_takeaway_length (transcript title : String) (existingSummary : Option String) :
    jGet (get_fallback_summary transcript title existingSummary) "quick_takeaway"
      = some (.str ("Summary of: " ++ title))
    ∧ (("Summary of: " ++ title).length ≤ 150 ↔ title.length ≤ 138) := by
  constructor
  · cases existingSummary <;> rfl
  · rw [String.length_append]
    have h12 : ("Summary of: " : String).length = 12 := rfl
    rw [h12]
    omega

/-- C3 (code bug exhibit): in `indepth` mode the validator's required-field
list contains `"arguments"`, yet feeding it unparseable output degrades to the
fallback structure, which does not carry that key — the degraded result is not
schema-valid for `indepth` mode. -/
theorem validator_indepth_fallback_lacks_arguments :
    summarize_single_pass (.returned none) "hello world" "T" "indepth" indepthConfig "Objective"
      = get_fallback_summary "hello world" "T" none
    ∧ hasKey (get_fallback_summary "hello world" "T" none) "arguments" = false
    ∧ "arguments" ∈ required_fields "indepth"
    ∧ (fullSummaryOf (get_fallback_summary "hello world" "T" none)).length = 1
    ∧ jGet (fullSummaryOf (get_fallback_summary "hello world" "T" none)).head! "id"
        = some (.num 1) :=
  ⟨rfl, rfl, by decide, rfl, rfl⟩

/-- C1 (code bug exhibit): a valid `indepth` request whose backend call raises
returns without error, but the payload is the fallback structure, which lacks
the mode-mandated key `detailed_analysis` (and `key_quotes`, `arguments`). -/
theorem indepth_backend_failure_missing_keys :
    generate_comprehensive_summary ⟨.raised, fun _ => none⟩ "hello world" "T" "indepth"
        [] "00:00" "end" "Objective"
      = .ok (get_fallback_summary "hello world" "T" none)
    ∧ hasKey (get_fallback_summary "hello world" "T" none) "detailed_analysis" = false
    ∧ hasKey (get_fallback_summary "hello world" "T" none) "key_quotes" = false
    ∧ hasKey (get_fallback_summary "hello world" "T" none) "arguments" = false
    ∧ "detailed_analysis" ∈ required_fields "indepth" :=
  ⟨rfl, rfl, rfl, rfl, by decide⟩

/-- C2 counterexample: a non-default range (`start_time = "10:00"`) with empty
raw segments does NOT raise an input error — the orchestrator returns a
successful summary computed from the full transcript. -/
theorem nondefault_range_without_segments_no_error :
    generate_comprehensive_summary ⟨.raised, fun _ => none⟩ "hello world" "T" "quick"
        [] "10:00" "end" "Objective"
      = .ok (get_fallback_summary "hello world" "T" none) := rfl

/-- C2 amended: when no raw segments are supplied, the requested time range is
ignored entirely — the run is identical to a default-range request on the full
transcript (the source only logs a warning), for default and non-default
ranges alike; no error is raised on account of the range. -/
theorem empty_segments_range_ignored (o : Oracle) (transcript title mode : String)
    (startTime endTime tone : String) :
    generate_comprehensive_summary o transcript title mode [] startTime endTime tone
      = generate_comprehensive_summary o transcript title mode [] "00:00" "end" tone := by
  simp [generate_comprehensive_summary]

/-- C4: the fingerprint is a deterministic function of exactly the seven
components (prompt version, mode, start time, end time, tone, transcript,
title); for any collision-free hash, changing only the prompt version changes
the fingerprint, so a cache that only holds entries under the old version's
fingerprint misses the new one and a fresh summary is generated. -/
theorem fingerprint_version_sensitivity (hash : String → String)
    (hinj : Function.Injective hash)
    (v v' mode startTime endTime tone transcript title : String) (hv : v ≠ v') :
    (∀ v₂ m₂ st₂ et₂ tn₂ t₂ ttl₂ : String,
      v = v₂ → mode = m₂ → startTime = st₂ → endTime = et₂ → tone = tn₂ →
      transcript = t₂ → title = ttl₂ →
      contentFingerprint hash v mode startTime endTime tone transcript title
        = contentFingerprint hash v₂ m₂ st₂ et₂ tn₂ t₂ ttl₂)
    ∧ contentFingerprint hash v mode startTime endTime tone transcript title
        ≠ contentFingerprint hash v' mode startTime endTime tone transcript title
    ∧ ∀ cache : String → Option JValue,
        (∀ k, (cache k).isSome = true →
          k = contentFingerprint hash v mode startTime endTime tone transcript title) →
        cache (contentFingerprint hash v' mode startTime endTime tone transcript title)
          = none := by
  have hne : contentFingerprint hash v mode startTime endTime tone transcript title
      ≠ contentFingerprint hash v' mode startTime endTime tone transcript title := by
    intro h
    exact hv (versioned_content_version_inj (hinj h))
  refine ⟨?_, hne, ?_⟩
  · intro v₂ m₂ st₂ et₂ tn₂ t₂ ttl₂ h1 h2 h3 h4 h5 h6 h7
    subst h1; subst h2; subst h3; subst h4; subst h5; subst h6; subst h7
    rfl
  · intro cache hc
    cases hcv : cache (contentFingerprint hash v' mode startTime endTime tone transcript title) with
    | none => rfl
    | some x =>
      exact absurd ((hc _ (by rw [hcv]; rfl)).symm) hne

/-- C4 witness: with the identity as (injective) hash, the fingerprints for
version tokens "v5.0" and "v5.1" differ on an otherwise identical request. -/
theorem fingerprint_version_sensitivity_witness :
    contentFingerprint id "v5.0" "quick" "00:00" "end" "Objective" "hello world" "T"
      ≠ contentFingerprint id "v5.1" "quick" "00:00" "end" "Objective" "hello world" "T" :=
  (fingerprint_version_sensitivity id (fun _ _ h => h)
    "v5.0" "v5.1" "quick" "00:00" "end" "Objective" "hello world" "T" (by decide)).2.1

/-- C6: the resolved slicing window is validated in source order — a negative
start is reported first; then an end beyond the last segment's end time; then
start not strictly before end; then a window shorter than 60 seconds; and when
all four checks pass, none of these four validation errors is raised. -/
theorem slice_validation_order (segs : List Segment) (s e : ℚ) :
    (sliceCore segs s e = .error .negativeStart ↔ s < 0)
    ∧ (0 ≤ s →
        (sliceCore segs s e = .error .endBeyondDuration
          ↔ videoDuration segs < resolvedEnd segs e))
    ∧ (0 ≤ s → resolvedEnd segs e ≤ videoDuration segs →
        (sliceCore segs s e = .error .startNotBeforeEnd ↔ resolvedEnd segs e ≤ s))
    ∧ (0 ≤ s → resolvedEnd segs e ≤ videoDuration segs → s < resolvedEnd segs e →
        (sliceCore segs s e = .error .tooShort ↔ resolvedEnd segs e - s < 60))
    ∧ (0 ≤ s → resolvedEnd segs e ≤ videoDuration segs → s < resolvedEnd segs e →
        60 ≤ resolvedEnd segs e - s →
        sliceCore segs s e ≠ .error .negativeStart
        ∧ sliceCore segs s e ≠ .error .endBeyondDuration
        ∧ sliceCore segs s e ≠ .error .startNotBeforeEnd
        ∧ sliceCore segs s e ≠ .error .tooShort) := by
  refine ⟨?_, fun h0 => ?_, fun h0 hb => ?_, fun h0 hb hse => ?_, fun h0 hb hse hd => ?_⟩
  · by_cases h1 : s < 0
    · simp [sliceCore, h1]
    · simp only [sliceCore, h1, if_false, if_neg h1]
      split_ifs <;> simp [h1]
  · have h1 : ¬s < 0 := not_lt.mpr h0
    by_cases h2 : resolvedEnd segs e > videoDuration segs
    · simp [sliceCore, h1, h2]
    · simp only [sliceCore, if_neg h1, if_neg h2]
      split_ifs <;> simp [h2]
  · have h1 : ¬s < 0 := not_lt.mpr h0
    have h2 : ¬resolvedEnd segs e > videoDuration segs := not_lt.mpr hb
    by_cases h3 : s ≥ resolvedEnd segs e
    · simp [sliceCore, h1, h2, h3]
    · simp only [sliceCore, if_neg h1, if_neg h2, if_neg h3]
      split_ifs <;> simp [h3]
  · have h1 : ¬s < 0 := not_lt.mpr h0
    have h2 : ¬resolvedEnd segs e > videoDuration segs := not_lt.mpr hb
    have h3 : ¬s ≥ resolvedEnd segs e := not_le.mpr hse
    by_cases h4 : resolvedEnd segs e - s < 60
    · simp [sliceCore, h1, h2, h3, h4]
    · simp only [sliceCore, if_neg h1, if_neg h2, if_neg h3, if_neg h4]
      split_ifs <;> simp [h4]
  · have h1 : ¬s < 0 := not_lt.mpr h0
    have h2 : ¬resolvedEnd segs e > videoDuration segs := not_lt.mpr hb
    have h3 : ¬s ≥ resolvedEnd segs e := not_le.mpr hse
    have h4 : ¬resolvedEnd segs e - s < 60 := not_lt.mpr hd
    simp only [sliceCore, if_neg h1, if_neg h2, if_neg h3, if_neg h4]
    split_ifs <;> exact ⟨by simp, by simp, by simp, by simp⟩

/-- C6 witness: on a single two-minute segment with the valid window
[0, 100], none of the four window-validation errors is raised. -/
theorem slice_validation_order_witness :
    sliceCore [⟨0, 120, "hello"⟩] 0 100 ≠ .error .negativeStart
    ∧ sliceCore [⟨0, 120, "hello"⟩] 0 100 ≠ .error .tooShort := by
  have h := (slice_validation_order [⟨0, 120, "hello"⟩] 0 100).2.2.2.2
    (by norm_num)
    (by norm_num [resolvedEnd, videoDuration])
    (by norm_num [resolvedEnd, videoDuration])
    (by norm_num [resolvedEnd, videoDuration])
  exact ⟨h.1, h.2.2.2⟩

/-- C9: under a valid resolved window, a segment's text enters the sliced
transcript exactly when the segment overlaps the window
(`segment.end ≥ start AND segment.start ≤ end` — no strict containment), and
the included texts are joined in original order with single spaces. -/
theorem slice_overlap_inclusion (segs : List Segment) (s e : ℚ)
    (h0 : 0 ≤ s) (hb : resolvedEnd segs e ≤ videoDuration segs)
    (hse : s < resolvedEnd segs e) (hd : 60 ≤ resolvedEnd segs e - s)
    (hne : (segs.filter (overlapsWindow s (resolvedEnd segs e))).map Segment.text ≠ []) :
    sliceCore segs s e
      = .ok (String.intercalate " "
          ((segs.filter (overlapsWindow s (resolvedEnd segs e))).map Segment.text))
    ∧ ∀ seg ∈ segs,
        (seg ∈ segs.filter (overlapsWindow s (resolvedEnd segs e))
          ↔ (s ≤ seg.endSec ∧ seg.startSec ≤ resolvedEnd segs e)) := by
  constructor
  · have h1 : ¬s < 0 := not_lt.mpr h0
    have h2 : ¬resolvedEnd segs e > videoDuration segs := not_lt.mpr hb
    have h3 : ¬s ≥ resolvedEnd segs e := not_le.mpr hse
    have h4 : ¬resolvedEnd segs e - s < 60 := not_lt.mpr hd
    have h5 : ((segs.filter (overlapsWindow s (resolvedEnd segs e))).map Segment.text).isEmpty
        = false := by
      rw [List.isEmpty_eq_false]
      exact hne
    simp [sliceCore, if_neg h1, if_neg h2, if_neg h3, if_neg h4, h5]
  · intro seg hseg
    rw [List.mem_filter]
    simp [overlapsWindow, hseg]

/-- C9 witness: the window [0, 100] over one segment [0, 120] includes that
segment by overlap and returns its text. -/
theorem slice_overlap_inclusion_witness :
    sliceCore [⟨0, 120, "hello"⟩] 0 100
      = .ok (String.intercalate " "
          (([⟨0, 120, "hello"⟩] : List Segment).filter
              (overlapsWindow 0 (resolvedEnd [⟨0, 120, "hello"⟩] 100)) |>.map Segment.text)) :=
  (slice_overlap_inclusion [⟨0, 120, "hello"⟩] 0 100
    (by norm_num)
    (by norm_num [resolvedEnd, videoDuration])
    (by norm_num [resolvedEnd, videoDuration])
    (by norm_num [resolvedEnd, videoDuration])
    (by decide)).1

/-- C7: the estimated duration is word count divided by 150 (monotone in the
word count); the orchestrator routes through the chunked path exactly when the
estimate strictly exceeds the mode's chunking threshold and through the
single-pass path exactly when it is at or below, and a default-range run
dispatches on this strategy. -/
theorem strategy_selection (o : Oracle) (transcript title mode : String)
    (segs : List Segment) (tone : String) (hne : pyStrip transcript ≠ "") :
    estimate_duration_minutes transcript = ((pySplit transcript).length : ℚ) / 150
    ∧ (∀ t' : String, (pySplit transcript).length ≤ (pySplit t').length →
        estimate_duration_minutes transcript ≤ estimate_duration_minutes t')
    ∧ (∀ config : ModeConfig,
        (selectStrategy transcript config = .chunked
          ↔ config.chunking_threshold < estimate_duration_minutes transcript)
        ∧ (selectStrategy transcript config = .singlePass
          ↔ estimate_duration_minutes transcript ≤ config.chunking_threshold))
    ∧ generate_comprehensive_summary o transcript title mode segs "00:00" "end" tone
        = .ok (match selectStrategy transcript ((mode_configs mode).getD quickConfig) with
            | .chunked =>
                summarize_in_chunks o transcript title
                  (if (mode_configs mode).isSome then mode else "quick")
                  ((mode_configs mode).getD quickConfig)
                  (if valid_tones.contains tone then tone else "Objective")
            | .singlePass =>
                summarize_single_pass o.singleOutcome transcript title
                  (if (mode_configs mode).isSome then mode else "quick")
                  ((mode_configs mode).getD quickConfig)
                  (if valid_tones.contains tone then tone else "Objective")) := by
  refine ⟨rfl, ?_, ?_, ?_⟩
  · intro t' h
    unfold estimate_duration_minutes
    gcongr
  · intro config
    by_cases h : estimate_duration_minutes transcript > config.chunking_threshold
    · simp [selectStrategy, h]
    · simp [selectStrategy, h, not_lt.mp h]
  · have hcond : ¬((("00:00" : String) ≠ "00:00" ∨ ("end" : String) ≠ "end") ∧ segs ≠ []) := by
      simp
    cases hsel : selectStrategy transcript ((mode_configs mode).getD quickConfig) with
    | singlePass =>
      simp only [generate_comprehensive_summary, if_neg hne, if_neg hcond, hsel]
    | chunked =>
      simp only [generate_comprehensive_summary, if_neg hne, if_neg hcond, hsel]

/-- C7 witness: a two-word transcript is estimated at 2/150 minutes and routed
through the single-pass path in quick mode. -/
theorem strategy_selection_witness :
    selectStrategy "hello world" quickConfig = .singlePass
    ∧ estimate_duration_minutes "hello world" ≤ quickConfig.chunking_threshold := by
  have h := strategy_selection ⟨.raised, fun _ => none⟩ "hello world" "T" "quick" []
    "Objective" (by decide)
  have hest : estimate_duration_minutes "hello world" ≤ quickConfig.chunking_threshold := by
    rw [h.1]
    have hlen : (pySplit "hello world").length = 2 := by decide
    rw [hlen]
    norm_num [quickConfig]
  exact ⟨((h.2.2.1 quickConfig).2).mpr hest, hest⟩

/-- C8: the chunked path splits the transcript into contiguous chunks of
exactly `chunk_size` words (only the last may be shorter, and the chunks
concatenate back to the original word sequence); a failed condensation call
for a chunk yields that chunk's first 500 characters followed by `"..."`; the
digests are joined with the delimiter into a meta-transcript, which is handed
to the single-pass path with the original title, mode, config, and tone. -/
theorem chunked_path_structure (o : Oracle) (transcript title mode : String)
    (config : ModeConfig) (tone : String) (hn : 0 < config.chunk_size) :
    (chunksOfWords config.chunk_size (pySplit transcript).length (pySplit transcript)).flatten
        = pySplit transcript
    ∧ (∀ c ∈ chunksOfWords config.chunk_size (pySplit transcript).length (pySplit transcript),
        c ≠ [] ∧ c.length ≤ config.chunk_size)
    ∧ (∀ c ∈ (chunksOfWords config.chunk_size (pySplit transcript).length
          (pySplit transcript)).dropLast,
        c.length = config.chunk_size)
    ∧ split_transcript transcript config.chunk_size
        = (chunksOfWords config.chunk_size (pySplit transcript).length
            (pySplit transcript)).map (String.intercalate " ")
    ∧ (∀ (i : Nat) (chunk : String), o.chunkDigest i = none →
        summarize_chunk (o.chunkDigest i) chunk = chunk.take 500 ++ "...")
    ∧ summarize_in_chunks o transcript title mode config tone
        = summarize_single_pass o.singleOutcome
            (String.intercalate "\n\n---\n\n"
              ((split_transcript transcript config.chunk_size).enum.map
                (fun p => summarize_chunk (o.chunkDigest p.1) p.2)))
            title mode config tone := by
  refine ⟨chunksOfWords_join _ hn _ _ le_rfl,
          (chunksOfWords_sizes _ hn _ _ le_rfl).1,
          (chunksOfWords_sizes _ hn _ _ le_rfl).2,
          rfl, ?_, rfl⟩
  intro i chunk h
  rw [h]
  rfl

/-- C8 witness at a three-word transcript with the quick-mode chunk size. -/
theorem chunked_path_structure_witness :
    (chunksOfWords quickConfig.chunk_size (pySplit "a b c").length (pySplit "a b c")).flatten
      = pySplit "a b c"
    ∧ split_transcript "a b c" quickConfig.chunk_size
      = (chunksOfWords quickConfig.chunk_size (pySplit "a b c").length
          (pySplit "a b c")).map (String.intercalate " ") := by
  have h := chunked_path_structure ⟨.raised, fun _ => none⟩ "a b c" "T" "quick" quickConfig
    "Objective" (by decide)
  exact ⟨h.1, h.2.2.2.1⟩

end YTSum
